import Mathlib

/-!
Verification of the `MRIReconAugmentor` augmentation orchestrator
(`meddlr/transforms/builtin/mri.py`).

The development shallowly embeds the data model and the orchestration logic of
the source file.  Tensors are modelled as a shape (a list of axis lengths)
together with a data function from multi-indices (functions from axis position
to coordinate) to values; the value type is an arbitrary `MulZeroClass` so that
complex-valued data is covered.  External collaborators that live outside the
source file (the SENSE measurement operator, the normalizer, the scheduler
`step`, the seeding utility `seed_tfm_gens`, and the RNG internals of transform
generators) are modelled from their interface specification; every such
definition is marked `Modelled from the spec:` in its doc comment.  Everything
else is translated line by line from the source file; line numbers in the doc
comments refer to `meddlr/transforms/builtin/mri.py`.
-/

set_option maxHeartbeats 1000000

namespace Meddlr

/-- Shallow model of a `torch.Tensor`: a shape (list of axis lengths) and the
array contents, given as a function from multi-indices to values.  A
multi-index is a function from axis position to coordinate; only the first
`shape.length` axes are meaningful. -/
structure Tensor (α : Type) where
  shape : List Nat
  data : (Nat → Nat) → α

/-- Number of axes, `x.ndim` in torch. -/
def Tensor.ndim {α : Type} (x : Tensor α) : Nat := x.shape.length

/-- Well-formedness of the tensor model: the contents depend only on the
coordinates of the first `ndim` axes.  Every tensor realizable as an actual
array satisfies this. -/
def Tensor.wf {α : Type} (x : Tensor α) : Prop :=
  ∀ i j : Nat → Nat, (∀ m, m < x.ndim → i m = j m) → x.data i = x.data j

/-- `y = x.permute(dims)`: axis `k` of `y` is axis `dims[k]` of `x`, so
`y.shape[k] = x.shape[dims[k]]` and `y[i] = x[j]` where `j[dims[k]] = i[k]`,
i.e. `j[m] = i[indexOf m dims]` for a permutation `dims`. -/
def Tensor.permute {α : Type} (x : Tensor α) (dims : List Nat) : Tensor α :=
  { shape := dims.map (fun k => x.shape.getD k 0)
    data := fun i => x.data (fun m => i (List.indexOf m dims)) }

/-- Line 251: `dims = (0,) + tuple(range(3, x.ndim)) + (1, 2)`
(`range(3, n)` is `List.range' 3 (n - 3)`). -/
def spatialLastDims (n : Nat) : List Nat :=
  0 :: (List.range' 3 (n - 3) ++ [1, 2])

/-- Line 255: `dims = (0, x.ndim - 2, x.ndim - 1) + tuple(range(1, x.ndim - 2))`
(`range(1, n - 2)` is `List.range' 1 (n - 3)`). -/
def channelFirstDims (n : Nat) : List Nat :=
  0 :: (n - 2) :: (n - 1) :: List.range' 1 (n - 3)

/-- `MRIReconAugmentor._permute_data` (lines 247-257) acting on one tensor.
The Python method is variadic; it applies this axis permutation to each
argument independently, which the call model below mirrors by applying
`permuteData` to each tensor. -/
def permuteData {α : Type} (x : Tensor α) (spatial_last : Bool) : Tensor α :=
  if spatial_last then x.permute (spatialLastDims x.ndim)
  else x.permute (channelFirstDims x.ndim)

/-- Closed form of position `k` of `spatialLastDims n` (proof helper). -/
def slFun (n k : Nat) : Nat :=
  if k = 0 then 0 else if k ≤ n - 3 then k + 2 else if k = n - 2 then 1 else 2

/-- Closed form of position `k` of `channelFirstDims n` (proof helper). -/
def cfFun (n k : Nat) : Nat :=
  if k = 0 then 0 else if k = 1 then n - 2 else if k = 2 then n - 1 else k - 2

/-- A concrete deterministic transform (an instance of a `Transform` subclass).
`isGeometric` records whether its type subclasses `GeometricMixin`; `isNoOp`
whether it is a `NoOpTransform`.  `apply_kspace_maps` is `some f` when the
signature of `apply_kspace` declares a `maps` parameter (the source detects
this by `inspect.signature` at line 316); it is the maps-aware variant of
`apply_kspace`. -/
structure Transform (α : Type) where
  isGeometric : Bool
  isNoOp : Bool
  apply_image : Tensor α → Tensor α
  apply_maps : Tensor α → Tensor α
  apply_kspace : Tensor α → Tensor α
  apply_kspace_maps : Option (Tensor α → Tensor α → Tensor α)

/-- A `TransformGen`: a stateful factory of transforms.  `base_isTransform`
and `base_isGeometric` record `issubclass(g._base_transform, Transform)` and
`issubclass(g._base_transform, GeometricMixin)`.  `rng` is the current RNG
state and `rng0` the state restored by `reset`.  Modelled from the spec: the
RNG internals are external to the source file, so a draw (`get_transform`) is
modelled as the pure function `make` of the RNG state and the context data,
and `reseed` as a deterministic map from an optional seed to an RNG state.
`schedulable` records `isinstance(g, SchedulableMixin)` and `scheds` the
progress counters of the attached `TFScheduler`s. -/
structure TransformGen (α : Type) where
  base_isTransform : Bool
  base_isGeometric : Bool
  schedulable : Bool
  scheds : List Nat
  rng : Nat
  rng0 : Nat
  reseed : Option Nat → Nat
  make : Nat → Tensor α → Transform α

/-- An entry of the resolved transform list (after `RandomTransformChoice`
resolution, lines 129-140): a bare `Transform`, a `TransformGen`, or an object
whose type is not a `Transform` subclass at all (the situation the assertion
at line 239 guards against). -/
inductive TfmItem (α : Type)
  | t (tfm : Transform α)
  | g (gen : TransformGen α)
  | bad

/-- A `RandomTransformChoice`: its `get_transform()` returns one transform
generator or a list of them (line 130); the result is flattened into the
classification pass (lines 133-140).  Modelled from the spec: the choice's RNG
draw is the pure function `pick` of its RNG state. -/
structure RandomTransformChoice (α : Type) where
  schedulable : Bool
  scheds : List Nat
  rng : Nat
  rng0 : Nat
  reseed : Option Nat → Nat
  pick : Nat → List (TfmItem α)

/-- An entry of `self.tfms_or_gens`. -/
inductive TfmOrGen (α : Type)
  | base (x : TfmItem α)
  | choice (c : RandomTransformChoice α)

/-- Lines 129-140: resolve `RandomTransformChoice` entries and flatten
list-valued resolutions.  A single (non-list) resolution and a singleton list
are indistinguishable after the flattening at lines 133-140, so both are the
`pick` returning a one-element list. -/
def resolveChoices {α : Type} (l : List (TfmOrGen α)) : List (TfmItem α) :=
  l.flatMap (fun x =>
    match x with
    | .base y => [y]
    | .choice c => c.pick c.rng)

/-- The classification key of line 235-238: `tfm._base_transform` for a
generator, `type(tfm)` otherwise; `true` iff it subclasses `Transform`.
A `bad` item is precisely one whose key fails this test. -/
def kindIsTransform {α : Type} : TfmItem α → Bool
  | .t _ => true
  | .g gen => gen.base_isTransform
  | .bad => false

/-- Line 241: whether the classification key subclasses `GeometricMixin`. -/
def kindIsGeometric {α : Type} : TfmItem α → Bool
  | .t tfm => tfm.isGeometric
  | .g gen => gen.base_isGeometric
  | .bad => false

/-- Errors a call can abort with.  `assertFail` is a failure of one of the two
`assert` statements of the source (lines 239 and 187); `external` is any
exception raised by dereferencing a missing tensor or by an external
collaborator (e.g. `None.ndim` inside `_permute_data`, or constructing
`SenseModel` with `maps=None`). -/
inductive CallErr
  | assertFail
  | external
deriving DecidableEq

/-- `MRIReconAugmentor._classify_transforms` (lines 231-245): partition the
resolved list into equivariant (geometric) and invariant transforms,
asserting that every classification key subclasses `Transform`. -/
def classifyTransforms {α : Type} :
    List (TfmItem α) → Except CallErr (List (TfmItem α) × List (TfmItem α))
  | [] => .ok ([], [])
  | x :: xs =>
    if kindIsTransform x then
      match classifyTransforms xs with
      | .error e => .error e
      | .ok (te, ti) =>
        if kindIsGeometric x then .ok (x :: te, ti) else .ok (te, x :: ti)
    else .error .assertFail

/-- The `mask` argument of `__call__`: `None`, the boolean `True`, or a binary
tensor (line 93: `mask: Union[bool, torch.Tensor] = None`). -/
inductive MaskArg (α : Type)
  | none
  | boolTrue
  | tensor (m : Tensor α)

/-- Modelled from the spec: `meddlr.ops.complex.get_mask` (line 150) is
external to the source file; per the spec it derives the mask from the
non-zero support of the kspace data. -/
def get_mask {α : Type} [DecidableEq α] [Zero α] [One α] (k : Tensor α) : Tensor α :=
  { shape := k.shape, data := fun i => if k.data i = 0 then 0 else 1 }

/-- Modelled from the spec: the `SenseModel` measurement operator
(`meddlr.forward`) is external to the source file.  It is constructed from
maps and an optional weighting; `adj` is the coil-combination (adjoint) path
`SenseModel(maps, weights=w)(kspace, adjoint=True)`, `fwd` the decomposition
(forward) path `SenseModel(maps)(image)`.  The call model treats it as an
opaque collaborator. -/
structure SenseModel (α : Type) where
  adj : Tensor α → MaskArg α → Tensor α → Tensor α
  fwd : Tensor α → Tensor α → Tensor α

/-- Result of `Normalizer.normalize` (lines 171-178): the adopted kspace and
target together with the reported scale statistics. -/
structure NormOut (α : Type) where
  masked_kspace : Tensor α
  target : Option (Tensor α)
  mean : Tensor α
  std : Tensor α

/-- Modelled from the spec: the `Normalizer` collaborator
(`meddlr.data.transforms.transform`) is external to the source file; it maps
`(masked_kspace, image, target, mask)` to new kspace/target plus statistics. -/
structure Normalizer (α : Type) where
  normalize : Tensor α → Option (Tensor α) → Option (Tensor α) → MaskArg α → NormOut α

/-- `mask * kspace` at line 194.  `True * kspace` is `kspace`; the `none` case
is unreachable there because the assertion at line 187 has already ruled it
out (any total value works for it). -/
def maskStar {α : Type} [Mul α] (mask : MaskArg α) (k : Tensor α) : Tensor α :=
  match mask with
  | .tensor m => { shape := k.shape, data := fun i => m.data i * k.data i }
  | _ => k

/-- Lines 281 and 312: `tfm = g.get_transform(data) if isinstance(g, TransformGen)
else g`.  A `bad` item would be used as a transform and fail its first
attribute access, modelled as an external error at realization. -/
def realizeTfm {α : Type} (g : TfmItem α) (context : Tensor α) : Except CallErr (Transform α) :=
  match g with
  | .t tfm => .ok tfm
  | .g gen => .ok (gen.make gen.rng context)
  | .bad => .error .external

/-- `MRIReconAugmentor._apply_te` (lines 259-290): apply the equivariant
transforms in order to the image, the target (when present) and — when map
augmentation is enabled — the maps, skipping `NoOpTransform`s, and collect the
realized transforms. -/
def applyTe {α : Type} (aug_sensitivity_maps : Bool) :
    List (TfmItem α) → Tensor α → Option (Tensor α) → Option (Tensor α) →
    Except CallErr (Tensor α × Option (Tensor α) × Option (Tensor α) × List (Transform α))
  | [], image, target, maps => .ok (image, target, maps, [])
  | g :: gs, image, target, maps =>
    match realizeTfm g image with
    | .error e => .error e
    | .ok tfm =>
      if tfm.isNoOp then applyTe aug_sensitivity_maps gs image target maps
      else
        match applyTe aug_sensitivity_maps gs (tfm.apply_image image)
            (target.map tfm.apply_image)
            (if aug_sensitivity_maps then maps.map tfm.apply_maps else maps) with
        | .error e => .error e
        | .ok (image, target, maps, tfms) => .ok (image, target, maps, tfm :: tfms)

/-- `MRIReconAugmentor._apply_ti` (lines 292-321): apply the invariant
transforms in order to the kspace only, passing the maps exactly to those
transforms whose `apply_kspace` signature declares a `maps` parameter, and
collect the realized (non-no-op) transforms. -/
def applyTi {α : Type} :
    List (TfmItem α) → Tensor α → Tensor α →
    Except CallErr (Tensor α × List (Transform α))
  | [], kspace, _maps => .ok (kspace, [])
  | g :: gs, kspace, maps =>
    match realizeTfm g kspace with
    | .error e => .error e
    | .ok tfm =>
      if tfm.isNoOp then applyTi gs kspace maps
      else
        match applyTi gs
            (match tfm.apply_kspace_maps with
             | some f => f kspace maps
             | Option.none => tfm.apply_kspace kspace) maps with
        | .error e => .error e
        | .ok (kspace, tfms) => .ok (kspace, tfm :: tfms)

/-- An item all of whose realizable transforms declare no `maps` parameter in
`apply_kspace` (the introspection at line 316 finds nothing to pass). -/
def itemNeverMapsAware {α : Type} : TfmItem α → Prop
  | .t tfm => tfm.apply_kspace_maps = Option.none
  | .g gen => ∀ (r : Nat) (ks : Tensor α), (gen.make r ks).apply_kspace_maps = Option.none
  | .bad => True

/-- Scheduler progress counters reachable from one entry of `tfms_or_gens`:
`tfm.schedulers()` when `isinstance(tfm, SchedulableMixin)`, nothing
otherwise (lines 209-211). -/
def entSchedulers {α : Type} : TfmOrGen α → List Nat
  | .base (.g gen) => if gen.schedulable then gen.scheds else []
  | .choice c => if c.schedulable then c.scheds else []
  | _ => []

/-- Lines 198-199: `s.step(n)` for every reachable scheduler.  Modelled from
the spec: `TFScheduler.step` is external to the source file and advances the
progress counter by `n`. -/
def stepEntity {α : Type} (n : Nat) : TfmOrGen α → TfmOrGen α
  | .base (.g gen) =>
      .base (.g { gen with scheds := if gen.schedulable then gen.scheds.map (· + n) else gen.scheds })
  | .choice c =>
      .choice { c with scheds := if c.schedulable then c.scheds.map (· + n) else c.scheds }
  | e => e

/-- Modelled from the spec: `seed_tfm_gens` (`meddlr.transforms.build`) is
external to the source file; per the spec it deterministically reseeds every
generator's RNG (and, transitively, a composite's sub-generators) from the
given seed. -/
def seed_tfm_gens {α : Type} (l : List (TfmOrGen α)) (seed : Option Nat) : List (TfmOrGen α) :=
  l.map (fun x =>
    match x with
    | .base (.g gen) => .base (.g { gen with rng := gen.reseed seed, rng0 := gen.reseed seed })
    | .choice c => .choice { c with rng := c.reseed seed, rng0 := c.reseed seed }
    | e => e)

/-- The orchestrator state: the owned transform/generator list and the two
configuration flags (the `device` plumbing is orthogonal to every claim and is
not modelled). -/
structure MRIReconAugmentor (α : Type) where
  tfms_or_gens : List (TfmOrGen α)
  aug_sensitivity_maps : Bool
  apply_mask_after_invariant_tfms : Bool

/-- `MRIReconAugmentor.__init__` (lines 54-85).  Note the source's condition
at line 84 is `if seed is None`, so `seed_tfm_gens` runs (with `seed=None`)
only when no seed is supplied, and a supplied seed is never used. -/
def MRIReconAugmentor.init {α : Type} (tfms_or_gens : List (TfmOrGen α))
    (aug_sensitivity_maps : Bool) (seed : Option Nat)
    (apply_mask_after_invariant_tfms : Bool) : MRIReconAugmentor α :=
  { tfms_or_gens :=
      match seed with
      | Option.none => seed_tfm_gens tfms_or_gens Option.none
      | some _ => tfms_or_gens
    aug_sensitivity_maps := aug_sensitivity_maps
    apply_mask_after_invariant_tfms := apply_mask_after_invariant_tfms }

/-- `MRIReconAugmentor.schedulers` (lines 203-212). -/
def MRIReconAugmentor.schedulers {α : Type} (self : MRIReconAugmentor α) : List Nat :=
  self.tfms_or_gens.flatMap entSchedulers

/-- `MRIReconAugmentor.seed` (lines 330-333). -/
def MRIReconAugmentor.seed {α : Type} (self : MRIReconAugmentor α) (value : Nat) :
    MRIReconAugmentor α :=
  { self with tfms_or_gens := seed_tfm_gens self.tfms_or_gens (some value) }

/-- `MRIReconAugmentor.reset` (lines 323-328).  Modelled from the spec:
`TransformGen.reset` is external to the source file; it reinitializes the
generator's internal state without discarding configuration, here by
restoring the RNG state `rng0`.  `RandomTransformChoice` is itself a
`TransformGen`, so it is reset as well. -/
def MRIReconAugmentor.reset {α : Type} (self : MRIReconAugmentor α) : MRIReconAugmentor α :=
  { self with
    tfms_or_gens := self.tfms_or_gens.map (fun x =>
      match x with
      | .base (.g gen) => .base (.g { gen with rng := gen.rng0 })
      | .choice c => .choice { c with rng := c.rng0 }
      | e => e) }

/-- The returned data of one call: the `out` dictionary of line 196, the two
provenance lists of line 201, and the post-call `tfms_or_gens` (whose
schedulers were stepped at lines 198-199; in Python this mutation happens in
place). -/
structure CallOut (α : Type) where
  kspace : Tensor α
  maps : Option (Tensor α)
  target : Option (Tensor α)
  mean : Option (Tensor α)
  std : Option (Tensor α)
  tfms_equivariant : List (Transform α)
  tfms_invariant : List (Transform α)
  tfms_or_gens : List (TfmOrGen α)

/-- Lines 154-165: the equivariant stage.  When the classified equivariant
list is non-empty, permute image/target/maps to spatial-last layout, apply the
transforms, permute back, and — if any non-no-op transform was realized
(line 163 re-tests the reassigned `tfms_equivariant`) — recompute the kspace
from the transformed image and maps through the forward model.  A `None`
image, target or maps would fail `x.ndim` inside `_permute_data`
(an `AttributeError`), modelled as an external error. -/
def stageEquiv {α : Type} (aug_sensitivity_maps : Bool) (S : SenseModel α)
    (tfms_equivariant : List (TfmItem α)) (kspace : Tensor α)
    (img target maps : Option (Tensor α)) :
    Except CallErr (Tensor α × Option (Tensor α) × Option (Tensor α) × Option (Tensor α) ×
      List (Transform α)) :=
  if tfms_equivariant.isEmpty then .ok (kspace, img, target, maps, [])
  else
    match img, target, maps with
    | some img, some target, some maps =>
      match applyTe aug_sensitivity_maps tfms_equivariant
          (permuteData img true) (some (permuteData target true)) (some (permuteData maps true)) with
      | .error e => .error e
      | .ok (img, target, maps, tfmsE) =>
        match target, maps with
        | some target, some maps =>
          let img := permuteData img false
          let target := permuteData target false
          let maps := permuteData maps false
          let kspace := if tfmsE.isEmpty then kspace else S.fwd maps img
          .ok (kspace, some img, some target, some maps, tfmsE)
        | _, _ => .error .external
    | _, _, _ => .error .external

/-- Lines 167-169: the undersampling mask generator stage.  `mask_gen`
returns the undersampled kspace and the new mask; the image is refreshed by a
coil combination with the (non-`None`) maps. -/
def stageMaskGen {α : Type} (S : SenseModel α)
    (mask_gen : Option (Tensor α → Tensor α × Tensor α)) (kspace : Tensor α)
    (img maps : Option (Tensor α)) (mask : MaskArg α) :
    Except CallErr (Tensor α × Option (Tensor α) × MaskArg α) :=
  match mask_gen with
  | Option.none => .ok (kspace, img, mask)
  | some f =>
    match maps with
    | Option.none => .error .external
    | some maps =>
      let km := f kspace
      .ok (km.1, some (S.adj maps (.tensor km.2) km.1), .tensor km.2)

/-- Lines 171-180: the normalization stage; without a normalizer the scale
statistics are `None`. -/
def stageNorm {α : Type} (normalizer : Option (Normalizer α)) (kspace : Tensor α)
    (img target : Option (Tensor α)) (mask : MaskArg α) :
    Tensor α × Option (Tensor α) × Option (Tensor α) × Option (Tensor α) :=
  match normalizer with
  | Option.none => (kspace, target, Option.none, Option.none)
  | some nz =>
    let r := nz.normalize kspace img target mask
    (r.masked_kspace, r.target, some r.mean, some r.std)

/-- Lines 182-194: the invariant stage.  When the classified invariant list is
non-empty: assert a mask is established if re-masking is requested (line 187),
permute the kspace and the maps to spatial-last layout — permuting `None`
maps fails `x.ndim` (line 190), an external error — apply the invariant
transforms, permute back, and reapply the mask multiplicatively if
requested. -/
def stageInvariant {α : Type} [Mul α] (apply_mask_after_invariant_tfms : Bool)
    (tfms_invariant : List (TfmItem α)) (kspace : Tensor α)
    (maps : Option (Tensor α)) (mask : MaskArg α) :
    Except CallErr (Tensor α × List (Transform α)) :=
  if tfms_invariant.isEmpty then .ok (kspace, [])
  else
    if apply_mask_after_invariant_tfms && (match mask with | .none => true | _ => false) then
      .error .assertFail
    else
      match maps with
      | Option.none => .error .external
      | some maps =>
        match applyTi tfms_invariant (permuteData kspace true) (permuteData maps true) with
        | .error e => .error e
        | .ok (kspace, tfmsI) =>
          let kspace := permuteData kspace false
          let kspace := if apply_mask_after_invariant_tfms then maskStar mask kspace else kspace
          .ok (kspace, tfmsI)

/-- `MRIReconAugmentor.__call__` (lines 87-201). -/
def MRIReconAugmentor.call {α : Type} [DecidableEq α] [MulZeroClass α] [One α]
    (self : MRIReconAugmentor α) (S : SenseModel α)
    (kspace : Tensor α) (maps : Option (Tensor α)) (target : Option (Tensor α))
    (normalizer : Option (Normalizer α)) (mask : MaskArg α)
    (mask_gen : Option (Tensor α → Tensor α × Tensor α))
    (skip_tfm : Bool) (apply_mask_after_invariant_tfms : Option Bool) :
    Except CallErr (CallOut α) :=
  -- lines 121-122
  let applyMaskAfter :=
    apply_mask_after_invariant_tfms.getD self.apply_mask_after_invariant_tfms
  -- lines 123-142
  match
    (if skip_tfm then .ok ([], [])
     else classifyTransforms (resolveChoices self.tfms_or_gens)) with
  | .error e => .error e
  | .ok (tfms_equivariant, tfms_invariant) =>
    -- line 144
    let use_img := normalizer.isSome || !tfms_equivariant.isEmpty
    -- lines 146-152
    let mask :=
      if use_img then
        match mask with
        | .boolTrue => MaskArg.tensor (get_mask kspace)
        | m => m
      else mask
    match
      (if use_img then
        match maps with
        | Option.none => Except.error CallErr.external
        | some m => .ok (some (S.adj m mask kspace))
       else .ok Option.none) with
    | .error e => .error e
    | .ok img =>
      -- lines 154-165
      match stageEquiv self.aug_sensitivity_maps S tfms_equivariant kspace img target maps with
      | .error e => .error e
      | .ok (kspace, img, target, maps, tfms_equivariant) =>
        -- lines 167-169
        match stageMaskGen S mask_gen kspace img maps mask with
        | .error e => .error e
        | .ok (kspace, img, mask) =>
          -- lines 171-180
          match stageNorm normalizer kspace img target mask with
          | (kspace, target, mean, std) =>
            -- lines 182-194
            match stageInvariant applyMaskAfter tfms_invariant kspace maps mask with
            | .error e => .error e
            | .ok (kspace, tfms_invariant) =>
              -- lines 196-201
              .ok { kspace := kspace, maps := maps, target := target, mean := mean, std := std
                    tfms_equivariant := tfms_equivariant
                    tfms_invariant := tfms_invariant
                    tfms_or_gens :=
                      self.tfms_or_gens.map (stepEntity (kspace.shape.headD 0)) }

/-- Whether an `Except` value is a success (proof-side helper). -/
def exceptIsOk {ε β : Type} : Except ε β → Bool
  | .ok _ => true
  | .error _ => false

/-! ### Concrete instances used by witnesses and counterexamples -/

/-- A rank-3 integer tensor. -/
def wTensor : Tensor Int := { shape := [2, 3, 4], data := fun i => (i 0 : Int) }

/-- A trivial measurement operator instance. -/
def cSense : SenseModel Int := { adj := fun _ _ k => k, fwd := fun _ i => i }

/-- A concrete 4-dim kspace with batch size 2. -/
def cKs : Tensor Int := { shape := [2, 3, 4, 5], data := fun _ => 1 }

/-- Concrete 5-dim sensitivity maps. -/
def cMaps : Tensor Int := { shape := [2, 3, 4, 5, 1], data := fun _ => 1 }

/-- A concrete 4-dim target. -/
def cTarget : Tensor Int := { shape := [2, 3, 4, 1], data := fun _ => 1 }

/-- A concrete geometric (equivariant) transform. -/
def cTfmG : Transform Int :=
  { isGeometric := true, isNoOp := false,
    apply_image := fun x => { x with data := fun i => x.data i + 1 },
    apply_maps := fun x => x, apply_kspace := fun x => x, apply_kspace_maps := Option.none }

/-- A concrete invariant transform that writes a non-zero value everywhere
(also outside any mask support); not maps-aware. -/
def cTfmI : Transform Int :=
  { isGeometric := false, isNoOp := false,
    apply_image := fun x => x, apply_maps := fun x => x,
    apply_kspace := fun x => { x with data := fun _ => 5 },
    apply_kspace_maps := Option.none }

/-- A concrete maps-aware invariant transform. -/
def cTfmIM : Transform Int :=
  { isGeometric := false, isNoOp := false,
    apply_image := fun x => x, apply_maps := fun x => x,
    apply_kspace := fun x => x,
    apply_kspace_maps := some (fun k m => { k with data := fun i => k.data i + m.data i }) }

/-- A schedulable invariant generator whose draw is a no-op iff its RNG state
is zero. -/
def cGen (r : Nat) : TransformGen Int :=
  { base_isTransform := true, base_isGeometric := false, schedulable := true,
    scheds := [5], rng := r, rng0 := r, reseed := fun _ => 0,
    make := fun s _ =>
      { isGeometric := false, isNoOp := s == 0, apply_image := fun x => x,
        apply_maps := fun x => x, apply_kspace := fun x => x,
        apply_kspace_maps := Option.none } }

/-- A binary mask over `cKs`, zero outside the hyperplane with second
coordinate zero. -/
def cMask : Tensor Int := { shape := [2, 3, 4, 5], data := fun i => if i 1 = 0 then 1 else 0 }

/-! ### Permutation lemmas for the layout adapter -/

theorem length_spatialLastDims {n : Nat} (h3 : 3 ≤ n) : (spatialLastDims n).length = n := by
  simp [spatialLastDims]
  omega

theorem length_channelFirstDims {n : Nat} (h3 : 3 ≤ n) : (channelFirstDims n).length = n := by
  simp [channelFirstDims]
  omega

theorem getD_spatialLastDims {n k : Nat} (h3 : 3 ≤ n) (hk : k < n) :
    (spatialLastDims n).getD k 0 = slFun n k := by
  unfold spatialLastDims slFun
  match k with
  | 0 => simp
  | j + 1 =>
    rw [List.getD_cons_succ]
    by_cases hj : j < n - 3
    · rw [List.getD_append _ _ _ _ (by simp [List.length_range'] <;> omega)]
      rw [List.getD_eq_getElem _ _ (by simp [List.length_range'] <;> omega)]
      rw [List.getElem_range'_1 _ (by simp [List.length_range'] <;> omega)]
      rw [if_neg (by omega), if_pos (by omega)]
      omega
    · rw [List.getD_append_right _ _ _ _ (by simp [List.length_range'] <;> omega)]
      have hlen : (List.range' 3 (n - 3)).length = n - 3 := by simp
      rw [hlen]
      rcases (by omega : j - (n - 3) = 0 ∨ j - (n - 3) = 1) with h | h
      · rw [h, if_neg (by omega), if_neg (by omega), if_pos (by omega)]
        rfl
      · rw [h, if_neg (by omega), if_neg (by omega), if_neg (by omega)]
        rfl

theorem getD_channelFirstDims {n k : Nat} (h3 : 3 ≤ n) (hk : k < n) :
    (channelFirstDims n).getD k 0 = cfFun n k := by
  unfold channelFirstDims cfFun
  match k with
  | 0 => simp
  | 1 => simp
  | 2 => simp
  | j + 3 =>
    rw [List.getD_cons_succ, List.getD_cons_succ, List.getD_cons_succ]
    rw [List.getD_eq_getElem _ _ (by simp; omega)]
    rw [List.getElem_range'_1 _ (by simp; omega)]
    rw [if_neg (by omega), if_neg (by omega), if_neg (by omega)]
    omega

theorem indexOf_range' {s k m : Nat} (h1 : s ≤ m) (h2 : m < s + k) :
    List.indexOf m (List.range' s k) = m - s := by
  induction k generalizing s with
  | zero => omega
  | succ k ih =>
    rw [List.range'_succ]
    by_cases h : m = s
    · subst h
      rw [List.indexOf_cons_self]
      omega
    · rw [List.indexOf_cons_ne _ (by omega : s ≠ m)]
      rw [ih (by omega) (by omega)]
      omega

theorem indexOf_spatialLastDims {n m : Nat} (h3 : 3 ≤ n) (hm : m < n) :
    List.indexOf m (spatialLastDims n) = cfFun n m := by
  unfold spatialLastDims cfFun
  match m with
  | 0 =>
    rw [List.indexOf_cons_self]
    simp
  | 1 =>
    rw [List.indexOf_cons_ne _ (by omega : 0 ≠ 1)]
    rw [List.indexOf_append_of_not_mem (by simp [List.mem_range'_1])]
    have : List.indexOf 1 [1, 2] = 0 := by decide
    rw [this]
    simp
    omega
  | 2 =>
    rw [List.indexOf_cons_ne _ (by omega : 0 ≠ 2)]
    rw [List.indexOf_append_of_not_mem (by simp [List.mem_range'_1])]
    have : List.indexOf 2 [1, 2] = 1 := by decide
    rw [this]
    simp
    omega
  | j + 3 =>
    rw [List.indexOf_cons_ne _ (by omega : 0 ≠ j + 3)]
    rw [List.indexOf_append_of_mem (by rw [List.mem_range'_1]; omega)]
    rw [indexOf_range' (by omega) (by omega)]
    rw [if_neg (by omega), if_neg (by omega), if_neg (by omega)]
    omega

theorem indexOf_channelFirstDims {n m : Nat} (h3 : 3 ≤ n) (hm : m < n) :
    List.indexOf m (channelFirstDims n) = slFun n m := by
  unfold channelFirstDims slFun
  by_cases h0 : m = 0
  · subst h0
    rw [List.indexOf_cons_self]
    simp
  · rw [List.indexOf_cons_ne _ (by omega : 0 ≠ m)]
    by_cases hn2 : m = n - 2
    · rw [hn2, List.indexOf_cons_self]
      rw [if_neg (by omega), if_neg (by omega), if_pos rfl]
    · rw [List.indexOf_cons_ne _ (by omega : n - 2 ≠ m)]
      by_cases hn1 : m = n - 1
      · rw [hn1, List.indexOf_cons_self]
        rw [if_neg (by omega), if_neg (by omega), if_neg (by omega)]
      · rw [List.indexOf_cons_ne _ (by omega : n - 1 ≠ m)]
        rw [indexOf_range' (by omega) (by omega)]
        rw [if_neg h0, if_pos (by omega)]
        omega

theorem cfFun_lt {n k : Nat} (h3 : 3 ≤ n) (hk : k < n) : cfFun n k < n := by
  unfold cfFun
  split_ifs <;> omega

theorem slFun_lt {n k : Nat} (h3 : 3 ≤ n) (hk : k < n) : slFun n k < n := by
  unfold slFun
  split_ifs <;> omega

theorem slFun_cfFun {n k : Nat} (h3 : 3 ≤ n) (hk : k < n) : slFun n (cfFun n k) = k := by
  by_cases h0 : k = 0
  · subst h0
    unfold cfFun slFun
    simp
  · by_cases h1 : k = 1
    · subst h1
      have hb : cfFun n 1 = n - 2 := by unfold cfFun; norm_num
      rw [hb]
      unfold slFun
      rw [if_neg (by omega), if_neg (by omega), if_pos rfl]
    · by_cases h2 : k = 2
      · subst h2
        have hb : cfFun n 2 = n - 1 := by unfold cfFun; norm_num
        rw [hb]
        unfold slFun
        rw [if_neg (by omega), if_neg (by omega), if_neg (by omega)]
      · have hb : cfFun n k = k - 2 := by
          unfold cfFun
          rw [if_neg h0, if_neg h1, if_neg h2]
        rw [hb]
        unfold slFun
        rw [if_neg (by omega), if_pos (by omega)]
        omega

theorem cfFun_slFun {n k : Nat} (h3 : 3 ≤ n) (hk : k < n) : cfFun n (slFun n k) = k := by
  by_cases h0 : k = 0
  · subst h0
    unfold slFun cfFun
    simp
  · by_cases h1 : k ≤ n - 3
    · have hb : slFun n k = k + 2 := by unfold slFun; rw [if_neg h0, if_pos h1]
      rw [hb]
      unfold cfFun
      rw [if_neg (by omega), if_neg (by omega), if_neg (by omega)]
      omega
    · by_cases h2 : k = n - 2
      · have hb : slFun n k = 1 := by unfold slFun; rw [if_neg h0, if_neg h1, if_pos h2]
        rw [hb]
        unfold cfFun
        rw [if_neg (by omega), if_pos rfl]
        omega
      · have hb : slFun n k = 2 := by unfold slFun; rw [if_neg h0, if_neg h1, if_neg h2]
        rw [hb]
        unfold cfFun
        rw [if_neg (by omega), if_neg (by omega), if_pos rfl]
        omega

theorem permuteData_true {α : Type} (x : Tensor α) :
    permuteData x true = x.permute (spatialLastDims x.ndim) := rfl

theorem permuteData_false {α : Type} (x : Tensor α) :
    permuteData x false = x.permute (channelFirstDims x.ndim) := rfl

theorem ndim_permute {α : Type} (x : Tensor α) (dims : List Nat) :
    (x.permute dims).ndim = dims.length := by
  simp [Tensor.permute, Tensor.ndim]

/-- The composite of the two layout permutations is the identity, stated for
any pair of dimension lists with the right index behaviour.  Used for both
round-trip directions. -/
theorem permute_permute_id {α : Type} (x : Tensor α) (hwf : x.wf) (d1 d2 : List Nat)
    (hlen1 : d1.length = x.ndim) (hlen2 : d2.length = x.ndim)
    (hget : ∀ j, j < x.ndim → d1.getD (d2.getD j 0) 0 = j ∧ d2.getD j 0 < x.ndim)
    (hidx : ∀ m, m < x.ndim → List.indexOf (List.indexOf m d1) d2 = m) :
    (x.permute d1).permute d2 = x := by
  obtain ⟨s, d⟩ := x
  have hn : (Tensor.mk s d).ndim = s.length := rfl
  rw [hn] at hlen1 hlen2 hget hidx
  simp only [Tensor.permute]
  congr 1
  · apply List.ext_getElem
    · simp [hlen1, hlen2]
    · intro j hj hj2
      have hjn : j < s.length := by simpa [hlen2] using hj
      obtain ⟨hcomp, hd2lt⟩ := hget j hjn
      rw [List.getElem_map _]
      rw [← List.getD_eq_getElem _ 0 (by simpa [hlen2] using hj)]
      rw [List.getD_eq_getElem _ _ (by rw [List.length_map, hlen1]; exact hd2lt)]
      rw [List.getElem_map _]
      rw [← List.getD_eq_getElem _ 0 (by rw [hlen1]; exact hd2lt)]
      rw [hcomp]
      exact List.getD_eq_getElem _ _ hjn
  · funext i
    apply hwf
    intro m hm
    rw [hn] at hm
    rw [hidx m hm]

/-- Core round trip: spatial-last then channel-first is the identity on
well-formed tensors of rank at least 3. -/
theorem permuteData_sl_cl {α : Type} (x : Tensor α) (hwf : x.wf) (h3 : 3 ≤ x.ndim) :
    permuteData (permuteData x true) false = x := by
  rw [permuteData_true, permuteData_false, ndim_permute, length_spatialLastDims h3]
  apply permute_permute_id x hwf _ _ (length_spatialLastDims h3) (length_channelFirstDims h3)
  · intro j hj
    rw [getD_channelFirstDims h3 hj, getD_spatialLastDims h3 (cfFun_lt h3 hj)]
    exact ⟨slFun_cfFun h3 hj, cfFun_lt h3 hj⟩
  · intro m hm
    rw [indexOf_spatialLastDims h3 hm, indexOf_channelFirstDims h3 (cfFun_lt h3 hm)]
    exact slFun_cfFun h3 hm

/-- Core round trip: channel-first then spatial-last is the identity on
well-formed tensors of rank at least 3. -/
theorem permuteData_cl_sl {α : Type} (x : Tensor α) (hwf : x.wf) (h3 : 3 ≤ x.ndim) :
    permuteData (permuteData x false) true = x := by
  rw [permuteData_false, permuteData_true, ndim_permute, length_channelFirstDims h3]
  apply permute_permute_id x hwf _ _ (length_channelFirstDims h3) (length_spatialLastDims h3)
  · intro j hj
    rw [getD_spatialLastDims h3 hj, getD_channelFirstDims h3 (slFun_lt h3 hj)]
    exact ⟨cfFun_slFun h3 hj, slFun_lt h3 hj⟩
  · intro m hm
    rw [indexOf_channelFirstDims h3 hm, indexOf_spatialLastDims h3 (slFun_lt h3 hm)]
    exact cfFun_slFun h3 hm

/-! ### Classification lemmas -/

/-- Closed form of `_classify_transforms`: with every classification key a
`Transform` subclass it returns the geometric/non-geometric filters of the
input; otherwise the assertion fires. -/
theorem classifyTransforms_spec {α : Type} (l : List (TfmItem α)) :
    classifyTransforms l =
      if l.all kindIsTransform then
        .ok (l.filter kindIsGeometric, l.filter (fun x => !kindIsGeometric x))
      else .error .assertFail := by
  induction l with
  | nil => simp [classifyTransforms]
  | cons x xs ih =>
    by_cases hx : kindIsTransform x
    · by_cases hall : xs.all kindIsTransform
      · rw [if_pos (by simp [hx, hall])]
        simp only [classifyTransforms, ih, if_pos hall, hx, if_pos rfl]
        by_cases hg : kindIsGeometric x <;> simp [hg, List.filter_cons]
      · rw [if_neg (by simp [hall])]
        simp [classifyTransforms, ih, hall, hx]
    · rw [if_neg (by simp [hx])]
      simp [classifyTransforms, hx]

/-! ### Lemmas about the transform application loops -/

/-- `_apply_te` succeeds on any list whose classification keys pass the
`Transform` assertion (no `bad` items), and keeps the target and the maps
present. -/
theorem applyTe_ok {α : Type} (aug : Bool) (l : List (TfmItem α))
    (hl : ∀ x ∈ l, kindIsTransform x = true) :
    ∀ (img tgt mps : Tensor α), ∃ img2 tgt2 mps2 tfms,
      applyTe aug l img (some tgt) (some mps) = .ok (img2, some tgt2, some mps2, tfms) := by
  induction l with
  | nil =>
    intro img tgt mps
    exact ⟨img, tgt, mps, [], rfl⟩
  | cons x xs ih =>
    intro img tgt mps
    have hxs : ∀ y ∈ xs, kindIsTransform y = true := fun y hy => hl y (List.mem_cons_of_mem _ hy)
    have hreal : ∃ tfm, realizeTfm x img = .ok tfm := by
      match x with
      | .t tfm => exact ⟨tfm, rfl⟩
      | .g gen => exact ⟨gen.make gen.rng img, rfl⟩
      | .bad =>
        have := hl .bad (List.mem_cons_self _ _)
        simp [kindIsTransform] at this
    obtain ⟨tfm, hr⟩ := hreal
    simp only [applyTe, hr]
    by_cases hno : tfm.isNoOp
    · simp only [hno, if_true]
      exact ih hxs img tgt mps
    · simp only [Bool.not_eq_true] at hno
      simp only [hno, Bool.false_eq_true, if_false]
      by_cases haug : aug = true
      · subst haug
        obtain ⟨i2, t2, m2, ts, hts⟩ :=
          ih hxs (tfm.apply_image img) (tfm.apply_image tgt) (tfm.apply_maps mps)
        exact ⟨i2, t2, m2, tfm :: ts, by simp [hts]⟩
      · simp only [Bool.not_eq_true] at haug
        subst haug
        obtain ⟨i2, t2, m2, ts, hts⟩ :=
          ih hxs (tfm.apply_image img) (tfm.apply_image tgt) mps
        exact ⟨i2, t2, m2, tfm :: ts, by simp [hts]⟩

/-- With map augmentation disabled, `_apply_te` returns its maps argument
unchanged (lines 287-288 only touch the maps when `aug_sensitivity_maps`). -/
theorem applyTe_false_maps {α : Type} (l : List (TfmItem α)) :
    ∀ (img : Tensor α) (tgt mps : Option (Tensor α)) r,
      applyTe false l img tgt mps = .ok r → r.2.2.1 = mps := by
  induction l with
  | nil =>
    intro img tgt mps r h
    simp only [applyTe, Except.ok.injEq] at h
    rw [← h]
  | cons x xs ih =>
    intro img tgt mps r h
    simp only [applyTe] at h
    cases hr : realizeTfm x img with
    | error e =>
      rw [hr] at h
      exact absurd h (by simp)
    | ok tfm =>
      rw [hr] at h
      by_cases hno : tfm.isNoOp
      · simp only [hno, if_true] at h
        exact ih _ _ _ _ h
      · simp only [Bool.not_eq_true] at hno
        simp only [hno, Bool.false_eq_true, if_false] at h
        cases hrec : applyTe false xs (tfm.apply_image img) (Option.map tfm.apply_image tgt) mps with
        | error e =>
          rw [hrec] at h
          exact absurd h (by simp)
        | ok r2 =>
          rw [hrec] at h
          obtain ⟨i2, t2, m2, ts⟩ := r2
          have hm := ih _ _ _ _ hrec
          simp only [Except.ok.injEq] at h
          rw [← h]
          simpa using hm

/-- `_apply_ti` succeeds on any list without `bad` items. -/
theorem applyTi_ok {α : Type} (l : List (TfmItem α))
    (hl : ∀ x ∈ l, kindIsTransform x = true) :
    ∀ (ks mps : Tensor α), ∃ ks2 tfms, applyTi l ks mps = .ok (ks2, tfms) := by
  induction l with
  | nil =>
    intro ks mps
    exact ⟨ks, [], rfl⟩
  | cons x xs ih =>
    intro ks mps
    have hxs : ∀ y ∈ xs, kindIsTransform y = true := fun y hy => hl y (List.mem_cons_of_mem _ hy)
    have hreal : ∃ tfm, realizeTfm x ks = .ok tfm := by
      match x with
      | .t tfm => exact ⟨tfm, rfl⟩
      | .g gen => exact ⟨gen.make gen.rng ks, rfl⟩
      | .bad =>
        have := hl .bad (List.mem_cons_self _ _)
        simp [kindIsTransform] at this
    obtain ⟨tfm, hr⟩ := hreal
    simp only [applyTi, hr]
    by_cases hno : tfm.isNoOp
    · simp only [hno, if_true]
      exact ih hxs ks mps
    · simp only [Bool.not_eq_true] at hno
      simp only [hno, Bool.false_eq_true, if_false]
      obtain ⟨ks2, ts, hts⟩ := ih hxs
        (match tfm.apply_kspace_maps with
         | some f => f ks mps
         | Option.none => tfm.apply_kspace ks) mps
      exact ⟨ks2, tfm :: ts, by rw [hts]⟩

/-- When no invariant transform is maps-aware, `_apply_ti` ignores its maps
argument entirely. -/
theorem applyTi_noMapsAware {α : Type} (l : List (TfmItem α))
    (hl : ∀ x ∈ l, itemNeverMapsAware x) :
    ∀ (ks m1 m2 : Tensor α), applyTi l ks m1 = applyTi l ks m2 := by
  induction l with
  | nil =>
    intro ks m1 m2
    rfl
  | cons x xs ih =>
    intro ks m1 m2
    have hxs : ∀ y ∈ xs, itemNeverMapsAware y := fun y hy => hl y (List.mem_cons_of_mem _ hy)
    simp only [applyTi]
    cases hr : realizeTfm x ks with
    | error e => rfl
    | ok tfm =>
      have hnm : tfm.apply_kspace_maps = Option.none := by
        match x with
        | .t t0 =>
          have h0 := hl (.t t0) (List.mem_cons_self _ _)
          simp only [realizeTfm, Except.ok.injEq] at hr
          rw [← hr]
          exact h0
        | .g gen =>
          have h0 := hl (.g gen) (List.mem_cons_self _ _)
          simp only [realizeTfm, Except.ok.injEq] at hr
          rw [← hr]
          exact h0 gen.rng ks
        | .bad => simp [realizeTfm] at hr
      by_cases hno : tfm.isNoOp
      · simp only [hno, if_true]
        exact ih hxs ks m1 m2
      · simp only [Bool.not_eq_true] at hno
        simp only [hno, Bool.false_eq_true, if_false, hnm]
        rw [ih hxs (tfm.apply_kspace ks) m1 m2]


/-! ### Scheduler stepping -/

/-- Stepping every entity advances every reachable scheduler counter by `n`,
each exactly once. -/
theorem schedulers_step {α : Type} (l : List (TfmOrGen α)) (n : Nat) :
    (l.map (stepEntity n)).flatMap entSchedulers = (l.flatMap entSchedulers).map (· + n) := by
  induction l with
  | nil => rfl
  | cons x xs ih =>
    simp only [List.map_cons, List.flatMap_cons, List.map_append, ih]
    congr 1
    match x with
    | .base (.t t) => rfl
    | .base .bad => rfl
    | .base (.g gen) =>
      by_cases h : gen.schedulable <;> simp [stepEntity, entSchedulers, h]
    | .choice c =>
      by_cases h : c.schedulable <;> simp [stepEntity, entSchedulers, h]

/-! ### Anatomy of a successful call -/

/-- Every successful call returns the owned transform list with every
schedulable entity's scheduler counters advanced by the first-axis length of
the returned kspace (lines 198-199 run immediately before the return). -/
theorem call_ok_steps {α : Type} [DecidableEq α] [MulZeroClass α] [One α]
    (self : MRIReconAugmentor α) (S : SenseModel α) (ks : Tensor α)
    (mps tgt : Option (Tensor α)) (nz : Option (Normalizer α)) (mask : MaskArg α)
    (mg : Option (Tensor α → Tensor α × Tensor α)) (skip : Bool) (amait : Option Bool)
    (out : CallOut α)
    (h : MRIReconAugmentor.call self S ks mps tgt nz mask mg skip amait = .ok out) :
    out.tfms_or_gens = self.tfms_or_gens.map (stepEntity (out.kspace.shape.headD 0)) := by
  simp only [MRIReconAugmentor.call] at h
  repeat
    split at h
    try exact absurd h (by simp)
  simp only [Except.ok.injEq] at h
  subst h
  rfl

/-- The invariant stage with re-masking enabled and a tensor mask yields
kspace that vanishes wherever the mask does. -/
theorem stageInvariant_remask_zero {α : Type} [MulZeroClass α] (i : List (TfmItem α))
    (ks : Tensor α) (mps : Option (Tensor α)) (M : Tensor α)
    (r : Tensor α × List (Transform α)) (hiE : i.isEmpty = false)
    (h : stageInvariant true i ks mps (MaskArg.tensor M) = .ok r)
    (p : Nat → Nat) (hp : M.data p = 0) : r.1.data p = 0 := by
  unfold stageInvariant at h
  simp only [hiE, Bool.false_eq_true, if_false, Bool.true_and, Bool.and_false, if_true] at h
  split at h
  · exact Except.noConfusion h
  · split at h
    · exact Except.noConfusion h
    · simp only [Except.ok.injEq] at h
      subst h
      simp [maskStar, hp]

/-- With map augmentation disabled, the equivariant stage hands back exactly
the maps it was given: they are only permuted to spatial-last layout and back,
which is the identity on well-formed tensors of rank at least 3. -/
theorem stageEquiv_aug_false_maps {α : Type} (S : SenseModel α) (e : List (TfmItem α))
    (ks : Tensor α) (img tgt : Option (Tensor α)) (M : Tensor α)
    (r : Tensor α × Option (Tensor α) × Option (Tensor α) × Option (Tensor α) ×
      List (Transform α))
    (hwf : M.wf) (h3 : 3 ≤ M.ndim)
    (h : stageEquiv false S e ks img tgt (some M) = .ok r) :
    r.2.2.2.1 = some M := by
  unfold stageEquiv at h
  split at h
  · simp only [Except.ok.injEq] at h
    subst h
    rfl
  · cases img with
    | none => simp at h
    | some img0 =>
      cases tgt with
      | none => simp at h
      | some tgt0 =>
        simp only at h
        cases hApp : applyTe false e (permuteData img0 true) (some (permuteData tgt0 true))
            (some (permuteData M true)) with
        | error e2 =>
          rw [hApp] at h
          simp at h
        | ok r2 =>
          rw [hApp] at h
          obtain ⟨img2, tgt2, mps2, prov⟩ := r2
          have hm := applyTe_false_maps e _ _ _ _ hApp
          simp only at hm
          subst hm
          cases tgt2 with
          | none => simp at h
          | some tgt3 =>
            simp only [Except.ok.injEq] at h
            subst h
            simp only
            rw [permuteData_sl_cl M hwf h3]

/-- Anatomy of a successful non-skipped call: the classification succeeded and
the returned maps are exactly the maps component produced by the equivariant
stage (no later stage replaces them). -/
theorem call_ok_maps_anatomy {α : Type} [DecidableEq α] [MulZeroClass α] [One α]
    (self : MRIReconAugmentor α) (S : SenseModel α) (ks : Tensor α)
    (mps tgt : Option (Tensor α)) (nz : Option (Normalizer α)) (mask : MaskArg α)
    (mg : Option (Tensor α → Tensor α × Tensor α)) (amait : Option Bool) (out : CallOut α)
    (h : MRIReconAugmentor.call self S ks mps tgt nz mask mg false amait = .ok out) :
    ∃ te ti img1 r,
      classifyTransforms (resolveChoices self.tfms_or_gens) = .ok (te, ti) ∧
      stageEquiv self.aug_sensitivity_maps S te ks img1 tgt mps = .ok r ∧
      out.maps = r.2.2.2.1 := by
  simp only [MRIReconAugmentor.call, Bool.false_eq_true, if_false] at h
  repeat
    split at h
    try exact Except.noConfusion h
  all_goals
    simp only [Except.ok.injEq] at h
    subst h
    exact ⟨_, _, _, _, by assumption, by assumption, rfl⟩

/-! ### Error taxonomy of the stages (for the abort characterization) -/

/-- `_apply_te` never raises an assertion failure: its only failure mode is
the external attribute error of a non-`Transform` item. -/
theorem applyTe_error_external {α : Type} (aug : Bool) (l : List (TfmItem α)) :
    ∀ (img : Tensor α) (tgt mps : Option (Tensor α)) err,
      applyTe aug l img tgt mps = .error err → err = .external := by
  induction l with
  | nil =>
    intro img tgt mps err h
    simp [applyTe] at h
  | cons x xs ih =>
    intro img tgt mps err h
    simp only [applyTe] at h
    cases hr : realizeTfm x img with
    | error e2 =>
      rw [hr] at h
      match x with
      | .t tfm => simp [realizeTfm] at hr
      | .g gen => simp [realizeTfm] at hr
      | .bad =>
        simp only [realizeTfm, Except.error.injEq] at hr
        injection h with h2
        rw [← h2, ← hr]
    | ok tfm =>
      rw [hr] at h
      by_cases hno : tfm.isNoOp
      · simp only [hno, if_true] at h
        exact ih _ _ _ _ h
      · simp only [Bool.not_eq_true] at hno
        simp only [hno, Bool.false_eq_true, if_false] at h
        cases hrec : applyTe aug xs (tfm.apply_image img) (Option.map tfm.apply_image tgt)
            (if aug = true then Option.map tfm.apply_maps mps else mps) with
        | error e3 =>
          rw [hrec] at h
          injection h with h2
          subst h2
          exact ih _ _ _ _ hrec
        | ok r2 =>
          rw [hrec] at h
          obtain ⟨a, b, c, d⟩ := r2
          exact Except.noConfusion h

/-- `_apply_ti` never raises an assertion failure either. -/
theorem applyTi_error_external {α : Type} (l : List (TfmItem α)) :
    ∀ (ks mps : Tensor α) err, applyTi l ks mps = .error err → err = .external := by
  induction l with
  | nil =>
    intro ks mps err h
    simp [applyTi] at h
  | cons x xs ih =>
    intro ks mps err h
    simp only [applyTi] at h
    cases hr : realizeTfm x ks with
    | error e2 =>
      rw [hr] at h
      match x with
      | .t tfm => simp [realizeTfm] at hr
      | .g gen => simp [realizeTfm] at hr
      | .bad =>
        simp only [realizeTfm, Except.error.injEq] at hr
        injection h with h2
        rw [← h2, ← hr]
    | ok tfm =>
      rw [hr] at h
      by_cases hno : tfm.isNoOp
      · simp only [hno, if_true] at h
        exact ih _ _ _ h
      · simp only [Bool.not_eq_true] at hno
        simp only [hno, Bool.false_eq_true, if_false] at h
        cases hrec : applyTi xs
            (match tfm.apply_kspace_maps with
             | some f => f ks mps
             | Option.none => tfm.apply_kspace ks) mps with
        | error e3 =>
          rw [hrec] at h
          injection h with h2
          subst h2
          exact ih _ _ _ hrec
        | ok r2 =>
          rw [hrec] at h
          obtain ⟨a, b⟩ := r2
          exact Except.noConfusion h

/-- The equivariant stage never raises an assertion failure. -/
theorem stageEquiv_error_external {α : Type} (aug : Bool) (S : SenseModel α)
    (e : List (TfmItem α)) (ks : Tensor α) (img tgt mps : Option (Tensor α)) (err : CallErr)
    (h : stageEquiv aug S e ks img tgt mps = .error err) : err = .external := by
  unfold stageEquiv at h
  split at h
  · exact Except.noConfusion h
  · split at h
    · rename_i img0 tgt0 mps0
      split at h
      · rename_i e2 hApp
        injection h with h2
        subst h2
        exact applyTe_error_external aug e _ _ _ _ hApp
      · split at h
        · exact Except.noConfusion h
        · injection h with h2
          exact h2.symm
    · injection h with h2
      exact h2.symm

/-- The mask-generator stage never raises an assertion failure. -/
theorem stageMaskGen_error_external {α : Type} (S : SenseModel α)
    (mg : Option (Tensor α → Tensor α × Tensor α)) (ks : Tensor α)
    (img mps : Option (Tensor α)) (mask : MaskArg α) (err : CallErr)
    (h : stageMaskGen S mg ks img mps mask = .error err) : err = .external := by
  unfold stageMaskGen at h
  split at h
  · exact Except.noConfusion h
  · split at h
    · injection h with h2
      exact h2.symm
    · exact Except.noConfusion h

/-- The invariant stage raises the assertion failure exactly when it runs on a
non-empty invariant list with re-masking requested and no mask established. -/
theorem stageInvariant_assertFail_iff {α : Type} [Mul α] (a : Bool)
    (ti : List (TfmItem α)) (ks : Tensor α) (mps : Option (Tensor α)) (mask : MaskArg α) :
    stageInvariant a ti ks mps mask = .error .assertFail ↔
      (ti ≠ [] ∧ a = true ∧ mask = MaskArg.none) := by
  constructor
  · intro h
    unfold stageInvariant at h
    split at h
    · exact Except.noConfusion h
    · rename_i hne
      split at h
      · rename_i hguard
        simp only [Bool.and_eq_true] at hguard
        obtain ⟨ha, hm⟩ := hguard
        refine ⟨fun hnil => hne (by rw [hnil]; rfl), ha, ?_⟩
        cases mask with
        | none => rfl
        | boolTrue => simp at hm
        | tensor m => simp at hm
      · split at h
        · injection h with h2
          exact absurd h2.symm (by simp)
        · split at h
          · rename_i e2 hApp
            injection h with h2
            subst h2
            exact absurd (applyTi_error_external ti _ _ _ hApp) (by simp)
          · exact Except.noConfusion h
  · intro ⟨hne, ha, hm⟩
    subst ha
    subst hm
    unfold stageInvariant
    have : ti.isEmpty = false := by
      cases ti with
      | nil => exact absurd rfl hne
      | cons x xs => rfl
    simp [this]

/-- A non-empty equivariant stage that succeeded was given a target. -/
theorem stageEquiv_ok_target {α : Type} (aug : Bool) (S : SenseModel α)
    (e : List (TfmItem α)) (ks : Tensor α) (img tgt mps : Option (Tensor α))
    (r : Tensor α × Option (Tensor α) × Option (Tensor α) × Option (Tensor α) ×
      List (Transform α))
    (h : stageEquiv aug S e ks img tgt mps = .ok r) (hne : e ≠ []) : tgt ≠ Option.none := by
  intro htgt
  subst htgt
  unfold stageEquiv at h
  split at h
  · rename_i hemp
    simp only [List.isEmpty_eq_true] at hemp
    exact hne hemp
  · cases img with
    | none => simp at h
    | some img0 =>
      cases mps with
      | none => simp at h
      | some mps0 => simp at h

/-- The equivariant stage succeeds whenever its items pass the `Transform`
assertion and image, target and maps are present. -/
theorem stageEquiv_ok_exists {α : Type} (aug : Bool) (S : SenseModel α)
    (e : List (TfmItem α)) (hl : ∀ x ∈ e, kindIsTransform x = true)
    (ks img0 tgt0 mps0 : Tensor α) :
    ∃ r, stageEquiv aug S e ks (some img0) (some tgt0) (some mps0) = .ok r := by
  unfold stageEquiv
  by_cases hemp : e.isEmpty
  · rw [if_pos hemp]
    exact ⟨_, rfl⟩
  · rw [if_neg hemp]
    obtain ⟨i2, t2, m2, ts, hts⟩ :=
      applyTe_ok aug e hl (permuteData img0 true) (permuteData tgt0 true)
        (permuteData mps0 true)
    simp only [hts]
    exact ⟨_, rfl⟩

/-! ### Claims -/

/-- C1: for every call in which the transform list is empty or `skip_tfm` is
true, and no normalizer and no mask generator are supplied, the returned
kspace, maps and target are identical to the inputs, mean and std are null,
and both returned provenance lists are empty. -/
theorem C1_skip_or_empty_identity {α : Type} [DecidableEq α] [MulZeroClass α] [One α]
    (self : MRIReconAugmentor α) (S : SenseModel α) (ks : Tensor α)
    (mps tgt : Option (Tensor α)) (mask : MaskArg α) (skip : Bool) (amait : Option Bool)
    (h : skip = true ∨ self.tfms_or_gens = []) :
    MRIReconAugmentor.call self S ks mps tgt Option.none mask Option.none skip amait =
      .ok { kspace := ks, maps := mps, target := tgt, mean := Option.none, std := Option.none,
            tfms_equivariant := [], tfms_invariant := [],
            tfms_or_gens := self.tfms_or_gens.map (stepEntity (ks.shape.headD 0)) } := by
  obtain ⟨tl, am, ap⟩ := self
  rcases h with h | h
  · subst h
    rfl
  · simp only at h
    subst h
    cases skip <;> rfl

/-- C1 witness: concrete instance of the skip/empty identity. -/
theorem C1_witness :
    MRIReconAugmentor.call (MRIReconAugmentor.mk [] true false) cSense cKs (some cMaps)
        (some cTarget) Option.none MaskArg.none Option.none true Option.none =
      .ok { kspace := cKs, maps := some cMaps, target := some cTarget,
            mean := Option.none, std := Option.none,
            tfms_equivariant := [], tfms_invariant := [],
            tfms_or_gens := List.map (stepEntity (cKs.shape.headD 0)) [] } :=
  C1_skip_or_empty_identity (MRIReconAugmentor.mk [] true false) cSense cKs (some cMaps)
    (some cTarget) MaskArg.none true Option.none (Or.inl rfl)

/-- C2: for every well-formed tensor of rank at least 3, applying the layout
adapter with `spatial_last=true` and then `spatial_last=false`, or in the
opposite order, returns the original tensor; the permutation pair is its own
inverse. -/
theorem C2_permute_roundtrip {α : Type} (x : Tensor α) (hwf : x.wf) (h3 : 3 ≤ x.ndim) :
    permuteData (permuteData x true) false = x ∧ permuteData (permuteData x false) true = x :=
  ⟨permuteData_sl_cl x hwf h3, permuteData_cl_sl x hwf h3⟩

/-- C2 witness: the round trip on a concrete rank-3 tensor. -/
theorem C2_witness :
    wTensor.wf ∧ 3 ≤ wTensor.ndim ∧
      (permuteData (permuteData wTensor true) false = wTensor ∧
        permuteData (permuteData wTensor false) true = wTensor) := by
  have hwf : wTensor.wf := by
    intro i j hij
    simp only [wTensor]
    rw [hij 0 (by decide)]
  exact ⟨hwf, by decide, C2_permute_roundtrip wTensor hwf (by decide)⟩

/-- C3: classification produces two lists that exactly partition the input,
preserving relative order: the equivariant output is exactly the
geometric-tagged sublist, the invariant output exactly the rest, their
concatenation is a permutation of the input (no duplication, no loss), and
each output is an order-preserving sublist of the input. -/
theorem C3_classify_partition {α : Type} (l : List (TfmItem α)) (te ti : List (TfmItem α))
    (h : classifyTransforms l = .ok (te, ti)) :
    te = l.filter kindIsGeometric ∧
    ti = l.filter (fun x => !kindIsGeometric x) ∧
    List.Perm (te ++ ti) l ∧
    List.Sublist te l ∧ List.Sublist ti l := by
  rw [classifyTransforms_spec] at h
  by_cases hall : l.all kindIsTransform
  · rw [if_pos hall] at h
    simp only [Except.ok.injEq, Prod.mk.injEq] at h
    obtain ⟨h1, h2⟩ := h
    subst h1
    subst h2
    exact ⟨rfl, rfl, List.filter_append_perm _ l, List.filter_sublist l, List.filter_sublist l⟩
  · rw [if_neg hall] at h
    exact absurd h (by simp)

/-- C3 witness: classification of a concrete two-element list. -/
theorem C3_witness :
    classifyTransforms [TfmItem.t cTfmG, TfmItem.t cTfmI] = .ok ([.t cTfmG], [.t cTfmI]) ∧
      ([TfmItem.t cTfmG] = [TfmItem.t cTfmG, TfmItem.t cTfmI].filter kindIsGeometric ∧
        [TfmItem.t cTfmI] =
          [TfmItem.t cTfmG, TfmItem.t cTfmI].filter (fun x => !kindIsGeometric x) ∧
        List.Perm ([TfmItem.t cTfmG] ++ [TfmItem.t cTfmI]) [TfmItem.t cTfmG, TfmItem.t cTfmI] ∧
        List.Sublist [TfmItem.t cTfmG] [TfmItem.t cTfmG, TfmItem.t cTfmI] ∧
        List.Sublist [TfmItem.t cTfmI] [TfmItem.t cTfmG, TfmItem.t cTfmI]) := by
  have hcl : classifyTransforms [TfmItem.t cTfmG, TfmItem.t cTfmI] =
      .ok ([.t cTfmG], [.t cTfmI]) := rfl
  exact ⟨hcl, C3_classify_partition _ _ _ hcl⟩

/-- C7: on every completed orchestrator call, every scheduler reachable via
`schedulers()` is advanced exactly once, by the first-axis length of the
returned kspace, regardless of whether any transform was applied. -/
theorem C7_schedulers_advance {α : Type} [DecidableEq α] [MulZeroClass α] [One α]
    (self : MRIReconAugmentor α) (S : SenseModel α) (ks : Tensor α)
    (mps tgt : Option (Tensor α)) (nz : Option (Normalizer α)) (mask : MaskArg α)
    (mg : Option (Tensor α → Tensor α × Tensor α)) (skip : Bool) (amait : Option Bool)
    (out : CallOut α)
    (h : MRIReconAugmentor.call self S ks mps tgt nz mask mg skip amait = .ok out) :
    (MRIReconAugmentor.mk out.tfms_or_gens self.aug_sensitivity_maps
        self.apply_mask_after_invariant_tfms).schedulers =
      self.schedulers.map (· + out.kspace.shape.headD 0) := by
  have h2 := call_ok_steps self S ks mps tgt nz mask mg skip amait out h
  simp only [MRIReconAugmentor.schedulers, h2]
  exact schedulers_step _ _

/-- C7 witness: a concrete call (with `skip_tfm`, so no transform is applied)
still advances the schedulable generator's counter by the batch size 2. -/
theorem C7_witness :
    ∃ out, MRIReconAugmentor.call (MRIReconAugmentor.mk [.base (.g (cGen 0))] true false)
        cSense cKs Option.none Option.none Option.none MaskArg.none Option.none true
        Option.none = .ok out ∧
      (MRIReconAugmentor.mk out.tfms_or_gens true false).schedulers =
        (MRIReconAugmentor.mk [TfmOrGen.base (.g (cGen 0))] true false).schedulers.map
          (· + out.kspace.shape.headD 0) := by
  have hok : exceptIsOk (MRIReconAugmentor.call
      (MRIReconAugmentor.mk [.base (.g (cGen 0))] true false)
      cSense cKs Option.none Option.none Option.none MaskArg.none Option.none true
      Option.none) = true := rfl
  cases hc : MRIReconAugmentor.call (MRIReconAugmentor.mk [.base (.g (cGen 0))] true false)
      cSense cKs Option.none Option.none Option.none MaskArg.none Option.none true
      Option.none with
  | error e =>
    rw [hc] at hok
    exact absurd hok (by simp [exceptIsOk])
  | ok out =>
    exact ⟨out, rfl, C7_schedulers_advance _ _ _ _ _ _ _ _ _ _ out hc⟩

/-- C4: for a fixed tensor mask supplied to the call, with re-masking after
invariant transforms enabled and a non-empty classified invariant list (and no
mask generator, so the supplied mask is the one established), every completed
call returns kspace that is exactly zero at every position outside the mask's
support, whatever the invariant transforms wrote there. -/
theorem C4_remask_zero_outside_support {α : Type} [DecidableEq α] [MulZeroClass α] [One α]
    (self : MRIReconAugmentor α) (S : SenseModel α) (ks : Tensor α)
    (mps tgt : Option (Tensor α)) (nz : Option (Normalizer α)) (M : Tensor α)
    (skip : Bool) (amait : Option Bool) (e i : List (TfmItem α)) (out : CallOut α)
    (hskip : skip = false)
    (hcl : classifyTransforms (resolveChoices self.tfms_or_gens) = .ok (e, i))
    (hi : i ≠ [])
    (hamait : amait.getD self.apply_mask_after_invariant_tfms = true)
    (hok : MRIReconAugmentor.call self S ks mps tgt nz (MaskArg.tensor M) Option.none skip
      amait = .ok out)
    (p : Nat → Nat) (hp : M.data p = 0) :
    out.kspace.data p = 0 := by
  subst hskip
  have hiE : i.isEmpty = false := by
    cases i with
    | nil => exact absurd rfl hi
    | cons a l => rfl
  simp only [MRIReconAugmentor.call, stageEquiv, stageMaskGen, stageNorm,
    Bool.false_eq_true, if_false, hcl, hamait, ite_self] at hok
  repeat
    split at hok
    try exact Except.noConfusion hok
  all_goals
    simp only [Except.ok.injEq] at hok
    subst hok
    rename_i hInv
    exact stageInvariant_remask_zero i _ _ M _ hiE hInv p hp

/-- C4 witness: a concrete re-masking call with an invariant transform that
writes non-zero values everywhere; the output vanishes at a position outside
the mask support. -/
theorem C4_witness :
    ∃ out, MRIReconAugmentor.call (MRIReconAugmentor.mk [.base (.t cTfmI)] true true) cSense
        cKs (some cMaps) Option.none Option.none (MaskArg.tensor cMask) Option.none false
        Option.none = .ok out ∧ out.kspace.data (fun _ => 1) = 0 := by
  have hok : exceptIsOk (MRIReconAugmentor.call
      (MRIReconAugmentor.mk [.base (.t cTfmI)] true true) cSense cKs (some cMaps) Option.none
      Option.none (MaskArg.tensor cMask) Option.none false Option.none) = true := rfl
  cases hc : MRIReconAugmentor.call (MRIReconAugmentor.mk [.base (.t cTfmI)] true true) cSense
      cKs (some cMaps) Option.none Option.none (MaskArg.tensor cMask) Option.none false
      Option.none with
  | error e =>
    rw [hc] at hok
    exact absurd hok (by simp [exceptIsOk])
  | ok out =>
    exact ⟨out, rfl,
      C4_remask_zero_outside_support (MRIReconAugmentor.mk [.base (.t cTfmI)] true true)
        cSense cKs (some cMaps) Option.none Option.none cMask false Option.none []
        [.t cTfmI] out rfl rfl (by simp) rfl hc (fun _ => 1) rfl⟩

/-- C6: with `aug_sensitivity_maps=false` and a transform list that
classifies to only equivariant transforms, every completed call returns
sensitivity maps numerically identical to the (well-formed, rank at least 3)
input maps, even though image and target were transformed. -/
theorem C6_maps_identity {α : Type} [DecidableEq α] [MulZeroClass α] [One α]
    (self : MRIReconAugmentor α) (S : SenseModel α) (ks : Tensor α)
    (mps tgt : Option (Tensor α)) (nz : Option (Normalizer α)) (mask : MaskArg α)
    (mg : Option (Tensor α → Tensor α × Tensor α)) (skip : Bool) (amait : Option Bool)
    (e : List (TfmItem α)) (M : Tensor α) (out : CallOut α)
    (haug : self.aug_sensitivity_maps = false)
    (hskip : skip = false)
    (hcl : classifyTransforms (resolveChoices self.tfms_or_gens) = .ok (e, []))
    (hmaps : mps = some M) (hwf : M.wf) (h3 : 3 ≤ M.ndim)
    (hok : MRIReconAugmentor.call self S ks mps tgt nz mask mg skip amait = .ok out) :
    out.maps = some M := by
  subst hskip
  subst hmaps
  obtain ⟨te, ti, img1, r, hcl2, hE, hout⟩ :=
    call_ok_maps_anatomy self S ks (some M) tgt nz mask mg amait out hok
  rw [haug] at hE
  rw [hout]
  exact stageEquiv_aug_false_maps S te ks img1 tgt M r hwf h3 hE

/-- C6 witness: a concrete call with one equivariant transform and map
augmentation disabled returns the input maps. -/
theorem C6_witness :
    ∃ out, MRIReconAugmentor.call (MRIReconAugmentor.mk [.base (.t cTfmG)] false false) cSense
        cKs (some cMaps) (some cTarget) Option.none MaskArg.none Option.none false Option.none
        = .ok out ∧ out.maps = some cMaps := by
  have hok : exceptIsOk (MRIReconAugmentor.call
      (MRIReconAugmentor.mk [.base (.t cTfmG)] false false) cSense cKs (some cMaps)
      (some cTarget) Option.none MaskArg.none Option.none false Option.none) = true := rfl
  cases hc : MRIReconAugmentor.call (MRIReconAugmentor.mk [.base (.t cTfmG)] false false)
      cSense cKs (some cMaps) (some cTarget) Option.none MaskArg.none Option.none false
      Option.none with
  | error e =>
    rw [hc] at hok
    exact absurd hok (by simp [exceptIsOk])
  | ok out =>
    exact ⟨out, rfl,
      C6_maps_identity (MRIReconAugmentor.mk [.base (.t cTfmG)] false false) cSense cKs
        (some cMaps) (some cTarget) Option.none MaskArg.none Option.none false Option.none
        [.t cTfmG] cMaps out rfl rfl rfl rfl (fun i j hij => rfl) (by decide) hc⟩

/-- C8: the claim that a seed passed to the constructor makes two
identically-configured orchestrators produce identical outputs fails on the
code: line 84 reads `if seed is None`, so a supplied constructor seed is never
used and the generators keep their arbitrary initial RNG states.  Two
orchestrators whose generator configurations are identical but whose
freshly-created generators start in different RNG states produce different
outputs even though both were constructed with seed 42; seeding the same pair
through `seed(42)` (which does reseed) makes the outputs identical. -/
theorem C8_constructor_seed_ignored :
    (MRIReconAugmentor.call (MRIReconAugmentor.init [.base (.g (cGen 0))] true (some 42) false)
        cSense cKs (some cMaps) Option.none Option.none MaskArg.none Option.none false
        Option.none ≠
      MRIReconAugmentor.call (MRIReconAugmentor.init [.base (.g (cGen 1))] true (some 42) false)
        cSense cKs (some cMaps) Option.none Option.none MaskArg.none Option.none false
        Option.none) ∧
    MRIReconAugmentor.call
        ((MRIReconAugmentor.init [.base (.g (cGen 0))] true (some 42) false).seed 42)
        cSense cKs (some cMaps) Option.none Option.none MaskArg.none Option.none false
        Option.none =
      MRIReconAugmentor.call
        ((MRIReconAugmentor.init [.base (.g (cGen 1))] true (some 42) false).seed 42)
        cSense cKs (some cMaps) Option.none Option.none MaskArg.none Option.none false
        Option.none := by
  constructor
  · intro h
    have h2 := congrArg (fun r => match r with
      | Except.ok o => o.tfms_invariant.length
      | Except.error _ => 99) h
    exact absurd h2 (by decide)
  · rfl

/-- C9: the claim that a call with only invariant transforms, no normalizer
and no mask generator completes with `maps=None` fails on the code: line 190
eagerly evaluates `self._permute_data(maps, spatial_last=True)`, which
dereferences `None.ndim` and raises, even though the single invariant
transform here declares no `maps` parameter at all. -/
theorem C9_maps_none_crashes :
    MRIReconAugmentor.call (MRIReconAugmentor.mk [.base (.t cTfmI)] true false) cSense cKs
        Option.none Option.none Option.none MaskArg.none Option.none false Option.none =
      .error .external := rfl

/-- If image-domain work is needed but no maps are supplied, the call dies
with the external error of `SenseModel(None)` — never the assertion. -/
theorem call_mps_none_external {α : Type} [DecidableEq α] [MulZeroClass α] [One α]
    (self : MRIReconAugmentor α) (S : SenseModel α) (ks : Tensor α) (tgt : Option (Tensor α))
    (nz : Option (Normalizer α)) (mask : MaskArg α)
    (mg : Option (Tensor α → Tensor α × Tensor α)) (amait : Option Bool)
    (e i : List (TfmItem α))
    (hcl : classifyTransforms (resolveChoices self.tfms_or_gens) = .ok (e, i))
    (huse : (nz.isSome || !e.isEmpty) = true) :
    MRIReconAugmentor.call self S ks Option.none tgt nz mask mg false amait ≠
      .error .assertFail := by
  simp [MRIReconAugmentor.call, hcl, huse]

/-- If equivariant transforms are to run but no target is supplied, the call
dies with the external error of permuting `None` — never the assertion. -/
theorem call_tgt_none_external {α : Type} [DecidableEq α] [MulZeroClass α] [One α]
    (self : MRIReconAugmentor α) (S : SenseModel α) (ks : Tensor α) (mps : Option (Tensor α))
    (nz : Option (Normalizer α)) (mask : MaskArg α)
    (mg : Option (Tensor α → Tensor α × Tensor α)) (amait : Option Bool)
    (e i : List (TfmItem α))
    (hcl : classifyTransforms (resolveChoices self.tfms_or_gens) = .ok (e, i))
    (hne : e ≠ []) :
    MRIReconAugmentor.call self S ks mps Option.none nz mask mg false amait ≠
      .error .assertFail := by
  have hemp : e.isEmpty = false := by
    cases e with
    | nil => exact absurd rfl hne
    | cons a l => rfl
  cases mps with
  | none => simp [MRIReconAugmentor.call, hcl, hemp]
  | some m0 => simp [MRIReconAugmentor.call, hcl, hemp, stageEquiv]

/-- C5: the call aborts with an assertion failure exactly when it is not
skipped and either (1) some resolved entity's classification key is not a
`Transform` subclass, or (2) the call reaches a non-empty invariant stage
(surviving the earlier stages, which requires maps whenever image-domain work
occurs and a target whenever equivariant transforms run) with re-masking
requested and no mask established — no mask argument and no mask generator.
All other failures surface as external errors, never as assertion failures,
and nothing is silently recovered. -/
theorem C5_assert_abort_iff {α : Type} [DecidableEq α] [MulZeroClass α] [One α]
    (self : MRIReconAugmentor α) (S : SenseModel α) (ks : Tensor α)
    (mps tgt : Option (Tensor α)) (nz : Option (Normalizer α)) (mask : MaskArg α)
    (mg : Option (Tensor α → Tensor α × Tensor α)) (skip : Bool) (amait : Option Bool) :
    MRIReconAugmentor.call self S ks mps tgt nz mask mg skip amait = .error .assertFail ↔
      skip = false ∧
        (¬ (∀ x ∈ resolveChoices self.tfms_or_gens, kindIsTransform x = true) ∨
          ((∀ x ∈ resolveChoices self.tfms_or_gens, kindIsTransform x = true) ∧
            (resolveChoices self.tfms_or_gens).filter (fun x => !kindIsGeometric x) ≠ [] ∧
            amait.getD self.apply_mask_after_invariant_tfms = true ∧
            mask = MaskArg.none ∧ mg = Option.none ∧
            ((nz.isSome ||
                !((resolveChoices self.tfms_or_gens).filter kindIsGeometric).isEmpty) = true →
              mps ≠ Option.none) ∧
            ((resolveChoices self.tfms_or_gens).filter kindIsGeometric ≠ [] →
              tgt ≠ Option.none))) := by
  constructor
  · intro h
    cases skip with
    | true =>
      exfalso
      cases nz <;> cases mps <;> cases mg <;>
        simp [MRIReconAugmentor.call, stageEquiv, stageMaskGen, stageNorm,
          stageInvariant] at h
    | false =>
      refine ⟨rfl, ?_⟩
      by_cases hall : ∀ x ∈ resolveChoices self.tfms_or_gens, kindIsTransform x = true
      case neg => exact Or.inl hall
      refine Or.inr ⟨hall, ?_⟩
      have hcl : classifyTransforms (resolveChoices self.tfms_or_gens) =
          .ok ((resolveChoices self.tfms_or_gens).filter kindIsGeometric,
            (resolveChoices self.tfms_or_gens).filter (fun x => !kindIsGeometric x)) := by
        rw [classifyTransforms_spec, if_pos (List.all_eq_true.mpr hall)]
      have hmpsC : ((nz.isSome ||
          !((resolveChoices self.tfms_or_gens).filter kindIsGeometric).isEmpty) = true →
            mps ≠ Option.none) := by
        intro hu hmn
        subst hmn
        exact call_mps_none_external self S ks tgt nz mask mg amait _ _ hcl hu h
      have htgtC : ((resolveChoices self.tfms_or_gens).filter kindIsGeometric ≠ [] →
          tgt ≠ Option.none) := by
        intro hne htn
        subst htn
        exact call_tgt_none_external self S ks mps nz mask mg amait _ _ hcl hne h
      cases mg with
      | some f =>
        exfalso
        simp only [MRIReconAugmentor.call, Bool.false_eq_true, if_false, hcl,
          stageMaskGen] at h
        iterate 14 (all_goals try split at h)
        all_goals
          first
          | exact Except.noConfusion h
          | (rename_i heq0
             injection h with h2
             first
             | exact CallErr.noConfusion h2
             | (subst h2
                first
                | exact absurd (stageEquiv_error_external _ _ _ _ _ _ _ _ heq0) (by simp)
                | (rename_i hMg x9
                   obtain ⟨hiL, hB, hmaskv⟩ :=
                    (stageInvariant_assertFail_iff _ _ _ _ _).mp heq0
                   split at hMg
                   · exact Except.noConfusion hMg
                   · simp only [Except.ok.injEq, Prod.mk.injEq] at hMg
                     obtain ⟨hg1, hg2, hg3⟩ := hMg
                     rw [← hg3] at hmaskv
                     exact MaskArg.noConfusion hmaskv)
                | (iterate 4 (all_goals try split at heq0)
                   all_goals
                     first
                     | exact Except.noConfusion heq0
                     | (injection heq0 with h3
                        exact CallErr.noConfusion h3))))
      | none =>
        simp only [MRIReconAugmentor.call, Bool.false_eq_true, if_false, hcl,
          stageMaskGen] at h
        iterate 14 (all_goals try split at h)
        all_goals
          first
          | exact Except.noConfusion h
          | (rename_i heq0
             injection h with h2
             first
             | exact CallErr.noConfusion h2
             | (subst h2
                first
                | exact absurd (stageEquiv_error_external _ _ _ _ _ _ _ _ heq0) (by simp)
                | (obtain ⟨hiL, hB, hmaskv⟩ :=
                    (stageInvariant_assertFail_iff _ _ _ _ _).mp heq0
                   refine ⟨hiL, hB, ?_, rfl, hmpsC, htgtC⟩
                   cases mask with
                   | none => rfl
                   | boolTrue => split at hmaskv <;> simp at hmaskv
                   | tensor mt => split at hmaskv <;> simp at hmaskv)
                | (iterate 4 (all_goals try split at heq0)
                   all_goals
                     first
                     | exact Except.noConfusion heq0
                     | (injection heq0 with h3
                        exact CallErr.noConfusion h3))))
  · rintro ⟨hskip, hcase⟩
    subst hskip
    rcases hcase with hbad | ⟨hall, hiL, hB, hmask, hmg, hmps, htgt⟩
    · have hclE : classifyTransforms (resolveChoices self.tfms_or_gens) =
          .error .assertFail := by
        rw [classifyTransforms_spec, if_neg]
        intro hc
        exact hbad (List.all_eq_true.mp hc)
      simp [MRIReconAugmentor.call, hclE]
    · subst hmask
      subst hmg
      have hcl : classifyTransforms (resolveChoices self.tfms_or_gens) =
          .ok ((resolveChoices self.tfms_or_gens).filter kindIsGeometric,
            (resolveChoices self.tfms_or_gens).filter (fun x => !kindIsGeometric x)) := by
        rw [classifyTransforms_spec, if_pos (List.all_eq_true.mpr hall)]
      by_cases huse : (nz.isSome ||
          !((resolveChoices self.tfms_or_gens).filter kindIsGeometric).isEmpty) = true
      · cases hmp : mps with
        | none => exact absurd hmp (hmps huse)
        | some m0 =>
          subst hmp
          by_cases hemp : ((resolveChoices self.tfms_or_gens).filter kindIsGeometric).isEmpty
          · have hnzS : nz.isSome = true := by simpa [hemp] using huse
            simp only [MRIReconAugmentor.call, Bool.false_eq_true, if_false, hcl, huse,
              if_true, stageEquiv, hemp, hnzS, Bool.true_or, stageMaskGen, stageNorm]
            rw [(stageInvariant_assertFail_iff _ _ _ _ _).mpr ⟨hiL, hB, rfl⟩]
          · cases htg : tgt with
            | none =>
              have hne : (resolveChoices self.tfms_or_gens).filter kindIsGeometric ≠ [] := by
                intro hnil
                rw [hnil] at hemp
                exact hemp rfl
              exact absurd htg (htgt hne)
            | some t0 =>
              subst htg
              obtain ⟨r, hr⟩ := stageEquiv_ok_exists self.aug_sensitivity_maps S
                ((resolveChoices self.tfms_or_gens).filter kindIsGeometric)
                (fun x hx => hall x (List.mem_of_mem_filter hx)) ks
                (S.adj m0 MaskArg.none ks) t0 m0
              obtain ⟨ks2, img2, tgt2, mps2, provE⟩ := r
              simp only [MRIReconAugmentor.call, Bool.false_eq_true, if_false, hcl, huse,
                if_true, stageMaskGen, stageNorm]
              rw [hr]
              simp only []
              rw [(stageInvariant_assertFail_iff _ _ _ _ _).mpr ⟨hiL, hB, rfl⟩]
      · have hnz : nz = Option.none := by
          cases nz with
          | none => rfl
          | some nzv => simp at huse
        subst hnz
        have hempT : ((resolveChoices self.tfms_or_gens).filter kindIsGeometric).isEmpty
            = true := by
          simpa using huse
        simp only [MRIReconAugmentor.call, Bool.false_eq_true, if_false, hcl,
          Option.isSome_none, Bool.false_or, hempT, Bool.not_true, stageEquiv,
          if_true, stageMaskGen, stageNorm]
        rw [(stageInvariant_assertFail_iff _ _ _ _ _).mpr ⟨hiL, hB, rfl⟩]


/-- C10: in a completed call with both equivariant and invariant transforms
and map augmentation enabled (here with no normalizer, no mask generator, and
re-masking overridden off), the invariant stage consumes exactly the maps
produced by the equivariant stage, converted to spatial-last layout — not the
original input maps — and it replaces neither the returned maps nor the
returned target; moreover, whenever no classified invariant item is
maps-aware, the invariant stage's result does not depend on the maps argument
at all (such transforms receive no maps). -/
theorem C10_invariant_uses_updated_maps {α : Type} [DecidableEq α] [MulZeroClass α] [One α]
    (self : MRIReconAugmentor α) (S : SenseModel α) (ks : Tensor α)
    (mps tgt : Option (Tensor α)) (mask : MaskArg α) (skip : Bool)
    (e i : List (TfmItem α)) (out : CallOut α)
    (haug : self.aug_sensitivity_maps = true)
    (hskip : skip = false)
    (hcl : classifyTransforms (resolveChoices self.tfms_or_gens) = .ok (e, i))
    (he : e ≠ []) (hi : i ≠ [])
    (hok : MRIReconAugmentor.call self S ks mps tgt Option.none mask Option.none skip
      (some false) = .ok out) :
    ∃ img1 ksMid img2 tgt2 M provE ksI,
      stageEquiv true S e ks img1 tgt mps = .ok (ksMid, img2, tgt2, some M, provE) ∧
      applyTi i (permuteData ksMid true) (permuteData M true) = .ok (ksI, out.tfms_invariant) ∧
      out.maps = some M ∧
      out.target = tgt2 ∧
      out.tfms_equivariant = provE ∧
      out.kspace = permuteData ksI false ∧
      ((∀ x ∈ i, itemNeverMapsAware x) → ∀ m2 : Tensor α,
        applyTi i (permuteData ksMid true) m2 = .ok (ksI, out.tfms_invariant)) := by
  subst hskip
  have hiE : i.isEmpty = false := by
    cases i with
    | nil => exact absurd rfl hi
    | cons a l => rfl
  have heE : e.isEmpty = false := by
    cases e with
    | nil => exact absurd rfl he
    | cons a l => rfl
  simp only [MRIReconAugmentor.call, Bool.false_eq_true, if_false, hcl, haug, heE,
    stageMaskGen, stageNorm, stageInvariant, hiE, Bool.false_and, Option.getD,
    Option.isSome, Bool.not_false, Bool.false_or, if_true] at hok
  repeat
    split at hok
    try exact Except.noConfusion hok
  all_goals
    simp only [Except.ok.injEq] at hok
    subst hok
    rename_i hInv
    split at hInv
    · exact Except.noConfusion hInv
    · split at hInv
      · exact Except.noConfusion hInv
      · simp only [Except.ok.injEq, Prod.mk.injEq] at hInv
        obtain ⟨hks, htf⟩ := hInv
        subst hks
        subst htf
        exact ⟨_, _, _, _, _, _, _, by assumption, by assumption, rfl, rfl, rfl, rfl,
          fun hall m2 => (applyTi_noMapsAware i hall _ m2 _).trans (by assumption)⟩

theorem C10_witness :
    ∃ out : CallOut Int, MRIReconAugmentor.call
        (MRIReconAugmentor.mk [.base (.t cTfmG), .base (.t cTfmIM)] true false) cSense cKs
        (some cMaps) (some cTarget) Option.none MaskArg.none Option.none false (some false)
        = .ok out ∧
      ∃ img1 ksMid img2 tgt2 M provE ksI,
        stageEquiv true cSense [TfmItem.t cTfmG] cKs img1 (some cTarget) (some cMaps) =
          .ok (ksMid, img2, tgt2, some M, provE) ∧
        applyTi [TfmItem.t cTfmIM] (permuteData ksMid true) (permuteData M true) =
          .ok (ksI, out.tfms_invariant) ∧
        out.maps = some M ∧
        out.target = tgt2 ∧
        out.tfms_equivariant = provE ∧
        out.kspace = permuteData ksI false ∧
        ((∀ x ∈ [TfmItem.t cTfmIM], itemNeverMapsAware x) → ∀ m2 : Tensor Int,
          applyTi [TfmItem.t cTfmIM] (permuteData ksMid true) m2 =
            .ok (ksI, out.tfms_invariant)) := by
  have hok : exceptIsOk (MRIReconAugmentor.call
      (MRIReconAugmentor.mk [.base (.t cTfmG), .base (.t cTfmIM)] true false) cSense cKs
      (some cMaps) (some cTarget) Option.none MaskArg.none Option.none false (some false))
      = true := rfl
  cases hc : MRIReconAugmentor.call
      (MRIReconAugmentor.mk [.base (.t cTfmG), .base (.t cTfmIM)] true false) cSense cKs
      (some cMaps) (some cTarget) Option.none MaskArg.none Option.none false (some false) with
  | error e =>
    rw [hc] at hok
    exact absurd hok (by simp [exceptIsOk])
  | ok out =>
    exact ⟨out, rfl,
      C10_invariant_uses_updated_maps
        (MRIReconAugmentor.mk [.base (.t cTfmG), .base (.t cTfmIM)] true false) cSense cKs
        (some cMaps) (some cTarget) MaskArg.none false [.t cTfmG] [.t cTfmIM] out
        rfl rfl rfl (by simp) (by simp) hc⟩

end Meddlr
